import Mathlib

/-!
# Verification of the lntools encrypted peer transport core

This file gives a shallow embedding of the BOLT #8 framed transport
(`packages/lightnode-wire/lib/noise-socket.js`) and of the BOLT #1
ping message codec (`PingMessage`), together with spec-modelled
definitions for the parts of the repository whose code is not among the
provided sources (the `NoiseState` cipher wrapper, the `Peer` session
class, and the `PONG_BYTE_THRESHOLD` constant), and proves the frozen
claims about them.

Bytes are modelled as `Nat`; buffers as `List Nat`.  The AEAD cipher
suite is abstracted as functions indexed by the operation count
(`nonce`): each AEAD operation of a cipher state is a deterministic
function of the number of operations performed so far (key rotation
every 1000 operations is a deterministic function of this count as
well), so this parametrisation is faithful and fully general.
-/

namespace LnTools

/-- The read states of `NoiseSocket` (`READ_STATE` in noise-socket.js). -/
inductive ReadState
  | Pending
  | AwaitingHandshakeReply
  | ReadyForLen
  | ReadyForBody
  | Blocked
deriving DecidableEq, Repr

/-- Abstraction of the `NoiseState` collaborator used by `NoiseSocket`'s
read path.  `act2Ok m` tells whether `initiatorAct2 m` succeeds (it throws
on a version or AEAD failure); `act3 m` is the act-3 message produced
afterwards; `decryptLength k c` and `decryptMessage k c` are the results
of the k-th receive-side AEAD operation on ciphertext `c` (`none` models
a thrown AEAD tag failure). -/
structure NoiseModel where
  act2Ok : List Nat → Bool
  act3 : List Nat → List Nat
  decryptLength : Nat → List Nat → Option Nat
  decryptMessage : Nat → List Nat → Option (List Nat)

/-- Observable actions of the transport, in the order they happen. -/
inductive TEvent
  | pushed (m : List Nat)
  | wroteAct3 (m : List Nat)
  | emitConnect
  | emitReady
  | emitError
  | emitClose
deriving DecidableEq, Repr

/-- The mutable state of a `NoiseSocket`: its read state, the cached
decrypted length `this._l` (JS `null` is `none`), the number of
receive-side AEAD operations performed (the recv nonce counter), the
bytes buffered in the underlying socket but not yet consumed by
`socket.read`, the `messagesReceived` counter, and whether
`_terminate` has run (`dead`). -/
structure TState where
  readState : ReadState
  pendingLen : Option Nat
  nonce : Nat
  buf : List Nat
  messagesReceived : Nat
  dead : Bool
deriving DecidableEq, Repr

/-- One run of the `_onData` read loop of noise-socket.js, fuelled.  Each
productive iteration consumes at least 16 bytes from the socket buffer, so
`s.buf.length` fuel always suffices (see `runLoopF_congr`).

Branches, in source order:
* `PENDING` / `BLOCKED`: stop (`readMore = false`).
* `AWAITING_HANDSHAKE_REPLY` (`_processHandshakeReply`): needs 50 bytes,
  otherwise stop; process act 2 (a failure throws, which `_onData`
  catches and `_terminate` turns into `error` then `close`); write act 3;
  go to `READY_FOR_LEN`; emit `connect` and `ready`; continue.
* `READY_FOR_LEN` (`_processPacketLength`): needs 18 bytes, otherwise
  stop; decrypt the length (a tag failure terminates); cache it in `_l`;
  go to `READY_FOR_BODY`; continue.
* `READY_FOR_BODY` (`_processPacketBody`): needs `_l + 16` bytes,
  otherwise stop; decrypt (a tag failure terminates); clear `_l`;
  increment `messagesReceived`; push the plaintext; on backpressure
  (`push` returned `false`, modelled by the frame-indexed schedule
  `pushOk`) go to `BLOCKED` and stop, else go to `READY_FOR_LEN` and
  continue. -/
def runLoopF (nm : NoiseModel) (pushOk : Nat → Bool) : Nat → TState → TState × List TEvent
  | 0, s => (s, [])
  | fuel + 1, s =>
    match s.readState with
    | .Pending => (s, [])
    | .Blocked => (s, [])
    | .AwaitingHandshakeReply =>
      if 50 ≤ s.buf.length then
        if nm.act2Ok (s.buf.take 50) then
          let r := runLoopF nm pushOk fuel
            { s with readState := .ReadyForLen, buf := s.buf.drop 50 }
          (r.1, .wroteAct3 (nm.act3 (s.buf.take 50)) :: .emitConnect :: .emitReady :: r.2)
        else
          ({ s with buf := s.buf.drop 50, dead := true }, [.emitError, .emitClose])
      else (s, [])
    | .ReadyForLen =>
      if 18 ≤ s.buf.length then
        match nm.decryptLength s.nonce (s.buf.take 18) with
        | some l =>
          runLoopF nm pushOk fuel
            { s with readState := .ReadyForBody, pendingLen := some l,
                     nonce := s.nonce + 1, buf := s.buf.drop 18 }
        | none => ({ s with buf := s.buf.drop 18, dead := true }, [.emitError, .emitClose])
      else (s, [])
    | .ReadyForBody =>
      if s.pendingLen.getD 0 + 16 ≤ s.buf.length then
        match nm.decryptMessage s.nonce (s.buf.take (s.pendingLen.getD 0 + 16)) with
        | some m =>
          if pushOk s.messagesReceived then
            let r := runLoopF nm pushOk fuel
              { s with readState := .ReadyForLen, pendingLen := none,
                       nonce := s.nonce + 1, buf := s.buf.drop (s.pendingLen.getD 0 + 16),
                       messagesReceived := s.messagesReceived + 1 }
            (r.1, .pushed m :: r.2)
          else
            ({ s with readState := .Blocked, pendingLen := none,
                      nonce := s.nonce + 1, buf := s.buf.drop (s.pendingLen.getD 0 + 16),
                      messagesReceived := s.messagesReceived + 1 }, [.pushed m])
        | none =>
          ({ s with buf := s.buf.drop (s.pendingLen.getD 0 + 16), dead := true },
           [.emitError, .emitClose])
      else (s, [])

/-- `_onData`: run the read loop to completion (the fuel `s.buf.length`
is always sufficient, `runLoopF_congr`). -/
def runLoop (nm : NoiseModel) (pushOk : Nat → Bool) (s : TState) : TState × List TEvent :=
  runLoopF nm pushOk s.buf.length s

/-- A `readable` event delivering `chunk`: the bytes are appended to the
socket's internal buffer, then `_onData` runs. -/
def deliver (nm : NoiseModel) (pushOk : Nat → Bool) (s : TState) (chunk : List Nat) :
    TState × List TEvent :=
  runLoop nm pushOk { s with buf := s.buf ++ chunk }

/-- Deliver a list of chunks as successive `readable` events, collecting
the emitted events in order. -/
def deliverChunks (nm : NoiseModel) (pushOk : Nat → Bool) :
    TState → List (List Nat) → TState × List TEvent
  | s, [] => (s, [])
  | s, c :: cs =>
    let r := deliver nm pushOk s c
    let r2 := deliverChunks nm pushOk r.1 cs
    (r2.1, r.2 ++ r2.2)

/-- The state part of `_read`: leave `BLOCKED` for `READY_FOR_LEN`. -/
def readInvoke (s : TState) : TState :=
  if s.readState = .Blocked then { s with readState := .ReadyForLen } else s

/-- `_read`: unblock if blocked, then (via `setImmediate`) run `_onData`. -/
def onRead (nm : NoiseModel) (pushOk : Nat → Bool) (s : TState) : TState × List TEvent :=
  runLoop nm pushOk (readInvoke s)

/-- `_initiateHandshake` (act 1 is written to the socket; only the read
state matters here): transition to `AWAITING_HANDSHAKE_REPLY`. -/
def startHandshake (s : TState) : TState :=
  { s with readState := .AwaitingHandshakeReply }

/-- The state of a freshly constructed `NoiseSocket`. -/
def initState : TState :=
  { readState := .Pending, pendingLen := none, nonce := 0, buf := [],
    messagesReceived := 0, dead := false }

/-- The reachable transport states: the initial state, closed under
initiating the handshake (which the initiator does once, from
`PENDING`), under `readable` events delivering arbitrary chunks, and
under consumer `_read` calls. -/
inductive Reachable (nm : NoiseModel) (pushOk : Nat → Bool) : TState → Prop
  | init : Reachable nm pushOk initState
  | handshake {s : TState} : Reachable nm pushOk s → s.readState = .Pending →
      Reachable nm pushOk (startHandshake s)
  | deliver {s : TState} (chunk : List Nat) : Reachable nm pushOk s →
      Reachable nm pushOk (deliver nm pushOk s chunk).1
  | read {s : TState} : Reachable nm pushOk s →
      Reachable nm pushOk (onRead nm pushOk s).1

theorem runLoopF_pending (nm : NoiseModel) (pushOk : Nat → Bool) (fuel : Nat) (s : TState)
    (h : s.readState = .Pending) : runLoopF nm pushOk fuel s = (s, []) := by
  cases fuel with
  | zero => rfl
  | succ f => simp [runLoopF, h]

theorem runLoopF_blocked (nm : NoiseModel) (pushOk : Nat → Bool) (fuel : Nat) (s : TState)
    (h : s.readState = .Blocked) : runLoopF nm pushOk fuel s = (s, []) := by
  cases fuel with
  | zero => rfl
  | succ f => simp [runLoopF, h]

theorem runLoopF_hs_short (nm : NoiseModel) (pushOk : Nat → Bool) (fuel : Nat) (s : TState)
    (h : s.readState = .AwaitingHandshakeReply) (hl : s.buf.length < 50) :
    runLoopF nm pushOk fuel s = (s, []) := by
  cases fuel with
  | zero => rfl
  | succ f => simp [runLoopF, h, Nat.not_le.mpr hl]

theorem runLoopF_len_short (nm : NoiseModel) (pushOk : Nat → Bool) (fuel : Nat) (s : TState)
    (h : s.readState = .ReadyForLen) (hl : s.buf.length < 18) :
    runLoopF nm pushOk fuel s = (s, []) := by
  cases fuel with
  | zero => rfl
  | succ f => simp [runLoopF, h, Nat.not_le.mpr hl]

theorem runLoopF_body_short (nm : NoiseModel) (pushOk : Nat → Bool) (fuel : Nat) (s : TState)
    (h : s.readState = .ReadyForBody) (hl : s.buf.length < s.pendingLen.getD 0 + 16) :
    runLoopF nm pushOk fuel s = (s, []) := by
  cases fuel with
  | zero => rfl
  | succ f => simp [runLoopF, h, Nat.not_le.mpr hl]

/-- Fuel irrelevance: any fuel at least the buffered byte count computes
the same result, because every productive iteration consumes at least 16
bytes. -/
theorem runLoopF_congr (nm : NoiseModel) (pushOk : Nat → Bool) :
    ∀ f₁ f₂ : Nat, ∀ {s : TState}, s.buf.length ≤ f₁ → s.buf.length ≤ f₂ →
      runLoopF nm pushOk f₁ s = runLoopF nm pushOk f₂ s := by
  intro f₁
  induction f₁ with
  | zero =>
    intro f₂ s h1 _
    have hbuf : s.buf = [] := List.length_eq_zero.mp (Nat.le_zero.mp h1)
    cases f₂ with
    | zero => rfl
    | succ g =>
      cases hrs : s.readState <;>
        simp [runLoopF, hrs, hbuf]
  | succ f ih =>
    intro f₂ s h1 h2
    cases f₂ with
    | zero =>
      have hbuf : s.buf = [] := List.length_eq_zero.mp (Nat.le_zero.mp h2)
      cases hrs : s.readState <;>
        simp [runLoopF, hrs, hbuf]
    | succ g =>
      cases hrs : s.readState
      case Pending => simp [runLoopF, hrs]
      case Blocked => simp [runLoopF, hrs]
      case AwaitingHandshakeReply =>
        by_cases h50 : 50 ≤ s.buf.length
        · by_cases hok : nm.act2Ok (s.buf.take 50)
          · have hrec : runLoopF nm pushOk f
                  { s with readState := .ReadyForLen, buf := s.buf.drop 50 } =
                runLoopF nm pushOk g
                  { s with readState := .ReadyForLen, buf := s.buf.drop 50 } := by
              apply ih <;> simp [List.length_drop] <;> omega
            simp [runLoopF, hrs, h50, hok, hrec]
          · simp [runLoopF, hrs, h50, hok]
        · simp [runLoopF, hrs, h50]
      case ReadyForLen =>
        by_cases h18 : 18 ≤ s.buf.length
        · cases hdl : nm.decryptLength s.nonce (s.buf.take 18) with
          | some l =>
            have hrec : runLoopF nm pushOk f
                    { s with readState := .ReadyForBody, pendingLen := some l,
                             nonce := s.nonce + 1, buf := s.buf.drop 18 } =
                runLoopF nm pushOk g
                    { s with readState := .ReadyForBody, pendingLen := some l,
                             nonce := s.nonce + 1, buf := s.buf.drop 18 } := by
              apply ih <;> simp [List.length_drop] <;> omega
            simp [runLoopF, hrs, h18, hdl, hrec]
          | none => simp [runLoopF, hrs, h18, hdl]
        · simp [runLoopF, hrs, h18]
      case ReadyForBody =>
        by_cases h16 : s.pendingLen.getD 0 + 16 ≤ s.buf.length
        · cases hdm : nm.decryptMessage s.nonce (s.buf.take (s.pendingLen.getD 0 + 16)) with
          | some m =>
            by_cases hpush : pushOk s.messagesReceived
            · have hrec : runLoopF nm pushOk f
                      { s with readState := .ReadyForLen, pendingLen := none,
                               nonce := s.nonce + 1,
                               buf := s.buf.drop (s.pendingLen.getD 0 + 16),
                               messagesReceived := s.messagesReceived + 1 } =
                  runLoopF nm pushOk g
                      { s with readState := .ReadyForLen, pendingLen := none,
                               nonce := s.nonce + 1,
                               buf := s.buf.drop (s.pendingLen.getD 0 + 16),
                               messagesReceived := s.messagesReceived + 1 } := by
                apply ih <;> simp [List.length_drop] <;> omega
              simp [runLoopF, hrs, h16, hdm, hpush, hrec]
            · simp [runLoopF, hrs, h16, hdm, hpush]
          | none => simp [runLoopF, hrs, h16, hdm]
        · simp [runLoopF, hrs, h16]

/-- The read loop never grows the socket buffer. -/
theorem runLoopF_buf_le (nm : NoiseModel) (pushOk : Nat → Bool) :
    ∀ (fuel : Nat) (s : TState),
      (runLoopF nm pushOk fuel s).1.buf.length ≤ s.buf.length := by
  intro fuel
  induction fuel with
  | zero => intro s; exact Nat.le_refl _
  | succ f ih =>
    intro s
    cases hrs : s.readState
    case Pending => simp [runLoopF, hrs]
    case Blocked => simp [runLoopF, hrs]
    case AwaitingHandshakeReply =>
      by_cases h50 : 50 ≤ s.buf.length
      · by_cases hok : nm.act2Ok (s.buf.take 50)
        · have := ih { s with readState := .ReadyForLen, buf := s.buf.drop 50 }
          simp only [List.length_drop] at this
          simp [runLoopF, hrs, h50, hok]
          omega
        · simp [runLoopF, hrs, h50, hok, List.length_drop]
      · simp [runLoopF, hrs, h50]
    case ReadyForLen =>
      by_cases h18 : 18 ≤ s.buf.length
      · cases hdl : nm.decryptLength s.nonce (s.buf.take 18) with
        | some l =>
          have := ih { s with readState := .ReadyForBody, pendingLen := some l,
                              nonce := s.nonce + 1, buf := s.buf.drop 18 }
          simp only [List.length_drop] at this
          simp [runLoopF, hrs, h18, hdl]
          omega
        | none => simp [runLoopF, hrs, h18, hdl, List.length_drop]
      · simp [runLoopF, hrs, h18]
    case ReadyForBody =>
      by_cases h16 : s.pendingLen.getD 0 + 16 ≤ s.buf.length
      · cases hdm : nm.decryptMessage s.nonce (s.buf.take (s.pendingLen.getD 0 + 16)) with
        | some m =>
          by_cases hpush : pushOk s.messagesReceived
          · have := ih { s with readState := .ReadyForLen, pendingLen := none,
                                nonce := s.nonce + 1,
                                buf := s.buf.drop (s.pendingLen.getD 0 + 16),
                                messagesReceived := s.messagesReceived + 1 }
            simp only [List.length_drop] at this
            simp [runLoopF, hrs, h16, hdm, hpush]
            omega
          · simp [runLoopF, hrs, h16, hdm, hpush, List.length_drop]
        | none => simp [runLoopF, hrs, h16, hdm, List.length_drop]
      · simp [runLoopF, hrs, h16]

/-- The transport invariant: the cached decrypted length is present
exactly in `READY_FOR_BODY`, and the recv nonce counter equals two AEAD
operations per fully received frame plus one for a decrypted-but-unread
length.  The second conjunct pins each length to exactly one length
decryption: a repeated decryption of the same frame's length would
advance `nonce` past this value. -/
def Inv (s : TState) : Prop :=
  (s.pendingLen.isSome = true ↔ s.readState = .ReadyForBody) ∧
  s.nonce = 2 * s.messagesReceived + (if s.readState = .ReadyForBody then 1 else 0)

/-- The read loop never (re-)enters the handshake state. -/
theorem runLoopF_ne_ahr (nm : NoiseModel) (pushOk : Nat → Bool) :
    ∀ (fuel : Nat) (s : TState), s.readState ≠ .AwaitingHandshakeReply →
      (runLoopF nm pushOk fuel s).1.readState ≠ .AwaitingHandshakeReply := by
  intro fuel
  induction fuel with
  | zero => intro s h; exact h
  | succ f ih =>
    intro s h
    cases hrs : s.readState
    case Pending => simp [runLoopF, hrs]
    case Blocked => simp [runLoopF, hrs]
    case AwaitingHandshakeReply => exact absurd hrs h
    case ReadyForLen =>
      by_cases h18 : 18 ≤ s.buf.length
      · cases hdl : nm.decryptLength s.nonce (s.buf.take 18) with
        | some l =>
          have := ih { s with readState := .ReadyForBody, pendingLen := some l,
                              nonce := s.nonce + 1, buf := s.buf.drop 18 } (by simp)
          simp [runLoopF, hrs, h18, hdl]
          exact this
        | none => simp [runLoopF, hrs, h18, hdl]
      · simp [runLoopF, hrs, h18]
    case ReadyForBody =>
      by_cases h16 : s.pendingLen.getD 0 + 16 ≤ s.buf.length
      · cases hdm : nm.decryptMessage s.nonce (s.buf.take (s.pendingLen.getD 0 + 16)) with
        | some m =>
          by_cases hpush : pushOk s.messagesReceived
          · have := ih { s with readState := .ReadyForLen, pendingLen := none,
                                nonce := s.nonce + 1,
                                buf := s.buf.drop (s.pendingLen.getD 0 + 16),
                                messagesReceived := s.messagesReceived + 1 } (by simp)
            simp [runLoopF, hrs, h16, hdm, hpush]
            exact this
          · simp [runLoopF, hrs, h16, hdm, hpush]
        | none => simp [runLoopF, hrs, h16, hdm]
      · simp [runLoopF, hrs, h16]

/-- The read loop preserves the transport invariant. -/
theorem runLoopF_inv (nm : NoiseModel) (pushOk : Nat → Bool) :
    ∀ (fuel : Nat) (s : TState), Inv s → Inv (runLoopF nm pushOk fuel s).1 := by
  intro fuel
  induction fuel with
  | zero => intro s h; exact h
  | succ f ih =>
    rintro ⟨rs, pl, nn, bf, mr, dd⟩ ⟨hiff, hnonce⟩
    dsimp only at hiff hnonce
    cases rs
    case Pending =>
      exact ⟨hiff, hnonce⟩
    case Blocked =>
      exact ⟨hiff, hnonce⟩
    case AwaitingHandshakeReply =>
      have hpl : pl = none := by
        cases pl with
        | none => rfl
        | some v => simp at hiff
      simp only [reduceCtorEq, if_false] at hnonce
      subst hpl
      by_cases h50 : 50 ≤ bf.length
      · by_cases hok : nm.act2Ok (bf.take 50) = true
        · have h1 : Inv (runLoopF nm pushOk f
              ⟨.ReadyForLen, none, nn, bf.drop 50, mr, dd⟩).1 := by
            refine ih _ ⟨by simp, by simp [hnonce]⟩
          simpa [runLoopF, h50, hok] using h1
        · refine ⟨by simp [runLoopF, h50, hok], ?_⟩
          simp [runLoopF, h50, hok, hnonce]
      · rw [runLoopF_hs_short nm pushOk (f + 1) _ rfl (Nat.not_le.mp h50)]
        exact ⟨by simp, by simp [hnonce]⟩
    case ReadyForLen =>
      have hpl : pl = none := by
        cases pl with
        | none => rfl
        | some v => simp at hiff
      simp only [reduceCtorEq, if_false] at hnonce
      subst hpl
      by_cases h18 : 18 ≤ bf.length
      · cases hdl : nm.decryptLength nn (bf.take 18) with
        | some l =>
          have h1 : Inv (runLoopF nm pushOk f
              ⟨.ReadyForBody, some l, nn + 1, bf.drop 18, mr, dd⟩).1 := by
            refine ih _ ⟨by simp, by simp [hnonce]⟩
          simpa [runLoopF, h18, hdl] using h1
        | none =>
          refine ⟨by simp [runLoopF, h18, hdl], ?_⟩
          simp [runLoopF, h18, hdl]
          omega
      · rw [runLoopF_len_short nm pushOk (f + 1) _ rfl (Nat.not_le.mp h18)]
        exact ⟨by simp, by simp [hnonce]⟩
    case ReadyForBody =>
      cases pl with
      | none => simp at hiff
      | some l =>
      simp at hnonce
      by_cases h16 : l + 16 ≤ bf.length
      · cases hdm : nm.decryptMessage nn (bf.take (l + 16)) with
        | some m =>
          by_cases hpush : pushOk mr = true
          · have h1 : Inv (runLoopF nm pushOk f
                ⟨.ReadyForLen, none, nn + 1, bf.drop (l + 16), mr + 1, dd⟩).1 := by
              refine ih _ ⟨by simp, by simp; omega⟩
            simpa [runLoopF, h16, hdm, hpush] using h1
          · refine ⟨by simp [runLoopF, h16, hdm, hpush], ?_⟩
            simp [runLoopF, h16, hdm, hpush]
            omega
        | none =>
          refine ⟨by simp [runLoopF, h16, hdm], ?_⟩
          simp [runLoopF, h16, hdm]
          omega
      · rw [runLoopF_body_short nm pushOk (f + 1) _ rfl (by simpa using Nat.not_le.mp h16)]
        exact ⟨by simp, by simp; omega⟩

/-- Incrementality of the read loop, the heart of fragmentation
invariance.  Away from the handshake state, and provided decryption
never fails (the case for wire bytes produced by an honest peer's write
path), running the loop on a buffer extended by `extra` is the same as
running it on the original buffer and then running it again with `extra`
appended to the leftover, concatenating the emitted events. -/
theorem runLoopF_extend (nm : NoiseModel) (pushOk : Nat → Bool)
    (hL : ∀ n c, (nm.decryptLength n c).isSome = true)
    (hM : ∀ n c, (nm.decryptMessage n c).isSome = true)
    (k : Nat) (extra : List Nat) :
    ∀ g f : Nat, ∀ s : TState, s.readState ≠ .AwaitingHandshakeReply →
      s.buf.length + extra.length ≤ f → s.buf.length ≤ g →
      (runLoopF nm pushOk g s).1.buf.length + extra.length ≤ k →
      runLoopF nm pushOk f { s with buf := s.buf ++ extra } =
        ((runLoopF nm pushOk k { (runLoopF nm pushOk g s).1 with
            buf := (runLoopF nm pushOk g s).1.buf ++ extra }).1,
         (runLoopF nm pushOk g s).2 ++
           (runLoopF nm pushOk k { (runLoopF nm pushOk g s).1 with
              buf := (runLoopF nm pushOk g s).1.buf ++ extra }).2) := by
  intro g
  induction g with
  | zero =>
    intro f s _ hf hg hk
    have hbuf : s.buf = [] := List.length_eq_zero.mp (Nat.le_zero.mp hg)
    have h0 : runLoopF nm pushOk 0 s = (s, []) := rfl
    rw [h0]
    dsimp only
    rw [runLoopF_congr nm pushOk f k
      (by simp [hbuf]; omega) (by simp [hbuf]; omega)]
    simp
  | succ g ih =>
    intro f s hA hf hg hk
    obtain ⟨rs, pl, nn, bf, mr, dd⟩ := s
    dsimp only at hf hg hk hA ⊢
    cases rs
    case Pending =>
      rw [runLoopF_pending nm pushOk (g + 1) _ rfl] at hk ⊢
      dsimp only at hk ⊢
      rw [runLoopF_pending nm pushOk f _ rfl, runLoopF_pending nm pushOk k _ rfl]
      simp
    case Blocked =>
      rw [runLoopF_blocked nm pushOk (g + 1) _ rfl] at hk ⊢
      dsimp only at hk ⊢
      rw [runLoopF_blocked nm pushOk f _ rfl, runLoopF_blocked nm pushOk k _ rfl]
      simp
    case AwaitingHandshakeReply => exact absurd rfl hA
    case ReadyForLen =>
      by_cases h18 : 18 ≤ bf.length
      · obtain ⟨l, hdl⟩ := Option.isSome_iff_exists.mp (hL nn (bf.take 18))
        obtain ⟨f', rfl⟩ : ∃ f', f = f' + 1 := ⟨f - 1, by omega⟩
        have hstep : runLoopF nm pushOk (g + 1) ⟨.ReadyForLen, pl, nn, bf, mr, dd⟩ =
            runLoopF nm pushOk g ⟨.ReadyForBody, some l, nn + 1, bf.drop 18, mr, dd⟩ := by
          simp [runLoopF, h18, hdl]
        have h18x : 18 ≤ bf.length + extra.length := by omega
        have hstepExt : runLoopF nm pushOk (f' + 1)
              ⟨.ReadyForLen, pl, nn, bf ++ extra, mr, dd⟩ =
            runLoopF nm pushOk f'
              ⟨.ReadyForBody, some l, nn + 1, bf.drop 18 ++ extra, mr, dd⟩ := by
          simp [runLoopF, h18x, List.take_append_of_le_length h18, hdl,
                List.drop_append_of_le_length h18]
        rw [hstep] at hk ⊢
        rw [hstepExt]
        exact ih _ _ (by simp) (by simp [List.length_drop]; omega)
          (by simp [List.length_drop]; omega) hk
      · rw [runLoopF_len_short nm pushOk (g + 1) _ rfl (Nat.not_le.mp h18)] at hk ⊢
        dsimp only at hk ⊢
        rw [runLoopF_congr nm pushOk f k (by simp; omega) (by simp; omega)]
        simp
    case ReadyForBody =>
      by_cases h16 : pl.getD 0 + 16 ≤ bf.length
      · obtain ⟨m, hdm⟩ := Option.isSome_iff_exists.mp (hM nn (bf.take (pl.getD 0 + 16)))
        obtain ⟨f', rfl⟩ : ∃ f', f = f' + 1 := ⟨f - 1, by omega⟩
        have h16x : pl.getD 0 + 16 ≤ bf.length + extra.length := by omega
        by_cases hpush : pushOk mr = true
        · have hstep : runLoopF nm pushOk (g + 1) ⟨.ReadyForBody, pl, nn, bf, mr, dd⟩ =
              ((runLoopF nm pushOk g
                  ⟨.ReadyForLen, none, nn + 1, bf.drop (pl.getD 0 + 16), mr + 1, dd⟩).1,
               .pushed m :: (runLoopF nm pushOk g
                  ⟨.ReadyForLen, none, nn + 1, bf.drop (pl.getD 0 + 16), mr + 1, dd⟩).2) := by
            simp [runLoopF, h16, hdm, hpush]
          have hstepExt : runLoopF nm pushOk (f' + 1)
                ⟨.ReadyForBody, pl, nn, bf ++ extra, mr, dd⟩ =
              ((runLoopF nm pushOk f'
                  ⟨.ReadyForLen, none, nn + 1, bf.drop (pl.getD 0 + 16) ++ extra, mr + 1, dd⟩).1,
               .pushed m :: (runLoopF nm pushOk f'
                  ⟨.ReadyForLen, none, nn + 1, bf.drop (pl.getD 0 + 16) ++ extra, mr + 1, dd⟩).2) := by
            simp [runLoopF, h16x, List.take_append_of_le_length h16, hdm, hpush,
                  List.drop_append_of_le_length h16]
          rw [hstep] at hk ⊢
          dsimp only at hk ⊢
          rw [hstepExt]
          rw [ih _ _ (by simp) (by simp [List.length_drop]; omega)
            (by simp [List.length_drop]; omega) hk]
          simp
        · have hstep : runLoopF nm pushOk (g + 1) ⟨.ReadyForBody, pl, nn, bf, mr, dd⟩ =
              (⟨.Blocked, none, nn + 1, bf.drop (pl.getD 0 + 16), mr + 1, dd⟩,
               [.pushed m]) := by
            simp [runLoopF, h16, hdm, hpush]
          have hstepExt : runLoopF nm pushOk (f' + 1)
                ⟨.ReadyForBody, pl, nn, bf ++ extra, mr, dd⟩ =
              (⟨.Blocked, none, nn + 1, bf.drop (pl.getD 0 + 16) ++ extra, mr + 1, dd⟩,
               [.pushed m]) := by
            simp [runLoopF, h16x, List.take_append_of_le_length h16, hdm, hpush,
                  List.drop_append_of_le_length h16]
          rw [hstep] at hk ⊢
          dsimp only at hk ⊢
          rw [hstepExt, runLoopF_blocked nm pushOk k _ rfl]
          simp
      · rw [runLoopF_body_short nm pushOk (g + 1) _ rfl (Nat.not_le.mp h16)] at hk ⊢
        dsimp only at hk ⊢
        rw [runLoopF_congr nm pushOk f k (by simp; omega) (by simp; omega)]
        simp

/-- `messagesReceived` never decreases across a run of the read loop. -/
theorem runLoopF_mr_mono (nm : NoiseModel) (pushOk : Nat → Bool) :
    ∀ (fuel : Nat) (s : TState),
      s.messagesReceived ≤ (runLoopF nm pushOk fuel s).1.messagesReceived := by
  intro fuel
  induction fuel with
  | zero => intro s; exact Nat.le_refl _
  | succ f ih =>
    intro s
    cases hrs : s.readState
    case Pending => simp [runLoopF, hrs]
    case Blocked => simp [runLoopF, hrs]
    case AwaitingHandshakeReply =>
      by_cases h50 : 50 ≤ s.buf.length
      · by_cases hok : nm.act2Ok (s.buf.take 50)
        · have := ih { s with readState := .ReadyForLen, buf := s.buf.drop 50 }
          simp only at this
          simp [runLoopF, hrs, h50, hok]
          omega
        · simp [runLoopF, hrs, h50, hok]
      · simp [runLoopF, hrs, h50]
    case ReadyForLen =>
      by_cases h18 : 18 ≤ s.buf.length
      · cases hdl : nm.decryptLength s.nonce (s.buf.take 18) with
        | some l =>
          have := ih { s with readState := .ReadyForBody, pendingLen := some l,
                              nonce := s.nonce + 1, buf := s.buf.drop 18 }
          simp only at this
          simp [runLoopF, hrs, h18, hdl]
          omega
        | none => simp [runLoopF, hrs, h18, hdl]
      · simp [runLoopF, hrs, h18]
    case ReadyForBody =>
      by_cases h16 : s.pendingLen.getD 0 + 16 ≤ s.buf.length
      · cases hdm : nm.decryptMessage s.nonce (s.buf.take (s.pendingLen.getD 0 + 16)) with
        | some m =>
          by_cases hpush : pushOk s.messagesReceived
          · have := ih { s with readState := .ReadyForLen, pendingLen := none,
                                nonce := s.nonce + 1,
                                buf := s.buf.drop (s.pendingLen.getD 0 + 16),
                                messagesReceived := s.messagesReceived + 1 }
            simp only at this
            simp [runLoopF, hrs, h16, hdm, hpush]
            omega
          · simp [runLoopF, hrs, h16, hdm, hpush]
        | none => simp [runLoopF, hrs, h16, hdm]
      · simp [runLoopF, hrs, h16]

/-- After `_onData` has run to completion, running it again without new
bytes does nothing: the loop stopped because it could not progress. -/
theorem runLoop_quiescent (nm : NoiseModel) (pushOk : Nat → Bool)
    (hL : ∀ n c, (nm.decryptLength n c).isSome = true)
    (hM : ∀ n c, (nm.decryptMessage n c).isSome = true)
    (s : TState) (hA : s.readState ≠ .AwaitingHandshakeReply) :
    runLoop nm pushOk (runLoop nm pushOk s).1 = ((runLoop nm pushOk s).1, []) := by
  have h := runLoopF_extend nm pushOk hL hM
    ((runLoopF nm pushOk s.buf.length s).1.buf.length) [] s.buf.length
    s.buf.length s hA (by simp) (Nat.le_refl _) (by simp)
  simp only [List.append_nil] at h
  have heta : ∀ t : TState, { t with buf := t.buf } = t := fun _ => rfl
  rw [heta, heta] at h
  rw [Prod.ext_iff] at h
  obtain ⟨h1, h2⟩ := h
  dsimp only at h1 h2
  have h3 : (runLoopF nm pushOk ((runLoopF nm pushOk s.buf.length s).1.buf.length)
      (runLoopF nm pushOk s.buf.length s).1).2 = [] := by
    have hlen := congrArg List.length h2
    simp only [List.length_append] at hlen
    exact List.length_eq_zero.mp (by omega)
  exact Prod.ext h1.symm h3

/-- Chunked delivery equals one-shot delivery of the concatenation:
fragmentation invariance, for a quiescent non-handshake state and a
cipher model whose decryptions succeed. -/
theorem deliverChunks_join (nm : NoiseModel) (pushOk : Nat → Bool)
    (hL : ∀ n c, (nm.decryptLength n c).isSome = true)
    (hM : ∀ n c, (nm.decryptMessage n c).isSome = true) :
    ∀ (chunks : List (List Nat)) (s : TState), s.readState ≠ .AwaitingHandshakeReply →
      runLoop nm pushOk s = (s, []) →
      deliverChunks nm pushOk s chunks = deliver nm pushOk s chunks.flatten := by
  intro chunks
  induction chunks with
  | nil =>
    intro s _ hq
    have hs : ({ s with buf := s.buf ++ ([] : List (List Nat)).flatten } : TState) = s := by
      simp
    show (s, []) = runLoop nm pushOk { s with buf := s.buf ++ ([] : List (List Nat)).flatten }
    rw [hs, hq]
  | cons c cs ih =>
    intro s hA hq
    have hX : ({ s with buf := s.buf ++ c } : TState).readState ≠
        .AwaitingHandshakeReply := hA
    have hA1 : (runLoopF nm pushOk (s.buf ++ c).length
        { s with buf := s.buf ++ c }).1.readState ≠ .AwaitingHandshakeReply :=
      runLoopF_ne_ahr nm pushOk _ _ hX
    have hquc : runLoop nm pushOk (runLoopF nm pushOk (s.buf ++ c).length
          { s with buf := s.buf ++ c }).1 =
        ((runLoopF nm pushOk (s.buf ++ c).length { s with buf := s.buf ++ c }).1, []) :=
      runLoop_quiescent nm pushOk hL hM { s with buf := s.buf ++ c } hX
    have step2 := ih (runLoopF nm pushOk (s.buf ++ c).length
      { s with buf := s.buf ++ c }).1 hA1 hquc
    have step3 : deliver nm pushOk (runLoopF nm pushOk (s.buf ++ c).length
          { s with buf := s.buf ++ c }).1 cs.flatten =
        runLoopF nm pushOk
          ((runLoopF nm pushOk (s.buf ++ c).length
            { s with buf := s.buf ++ c }).1.buf.length + cs.flatten.length)
          { (runLoopF nm pushOk (s.buf ++ c).length { s with buf := s.buf ++ c }).1 with
            buf := (runLoopF nm pushOk (s.buf ++ c).length
              { s with buf := s.buf ++ c }).1.buf ++ cs.flatten } :=
      runLoopF_congr nm pushOk _ _ (Nat.le_refl _)
        (by simp only [List.length_append]; exact Nat.le_refl _)
    have hext := runLoopF_extend nm pushOk hL hM
      ((runLoopF nm pushOk (s.buf ++ c).length
        { s with buf := s.buf ++ c }).1.buf.length + cs.flatten.length)
      cs.flatten (s.buf ++ c).length
      ((s.buf ++ c).length + cs.flatten.length) { s with buf := s.buf ++ c }
      hX (by simp only [List.length_append]; exact Nat.le_refl _)
      (Nat.le_refl _) (Nat.le_refl _)
    have step5 : deliver nm pushOk s (c :: cs).flatten =
        runLoopF nm pushOk ((s.buf ++ c).length + cs.flatten.length)
          { s with buf := (s.buf ++ c) ++ cs.flatten } := by
      show runLoopF nm pushOk (s.buf ++ (c ++ cs.flatten)).length
          { s with buf := s.buf ++ (c ++ cs.flatten) } = _
      rw [← List.append_assoc]
      exact runLoopF_congr nm pushOk _ _ (Nat.le_refl _)
        (by simp only [List.length_append]; exact Nat.le_refl _)
    show ((deliverChunks nm pushOk (runLoopF nm pushOk (s.buf ++ c).length
            { s with buf := s.buf ++ c }).1 cs).1,
          (runLoopF nm pushOk (s.buf ++ c).length { s with buf := s.buf ++ c }).2 ++
            (deliverChunks nm pushOk (runLoopF nm pushOk (s.buf ++ c).length
              { s with buf := s.buf ++ c }).1 cs).2) =
        deliver nm pushOk s (c :: cs).flatten
    rw [step2, step3, step5]
    exact hext.symm


/-- Every reachable transport state satisfies the invariant. -/
theorem reachable_inv (nm : NoiseModel) (pushOk : Nat → Bool) :
    ∀ s : TState, Reachable nm pushOk s → Inv s := by
  intro s h
  induction h with
  | init => exact ⟨by simp [initState], by simp [initState]⟩
  | handshake _ hp ih =>
    obtain ⟨h1, h2⟩ := ih
    rw [hp] at h1 h2
    simp only [reduceCtorEq, iff_false, if_false] at h1 h2
    refine ⟨?_, ?_⟩
    · show _ ↔ ReadState.AwaitingHandshakeReply = ReadState.ReadyForBody
      simp [startHandshake, Option.not_isSome_iff_eq_none.mp h1]
    · show _ = _ + ite (ReadState.AwaitingHandshakeReply = ReadState.ReadyForBody) 1 0
      simpa using h2
  | deliver chunk _ ih =>
    exact runLoopF_inv nm pushOk _ _ ⟨ih.1, ih.2⟩
  | read _ ih =>
    apply runLoopF_inv
    obtain ⟨h1, h2⟩ := ih
    unfold readInvoke
    split
    · rename_i hb
      rw [hb] at h1 h2
      simp only [reduceCtorEq, iff_false, if_false] at h1 h2
      refine ⟨?_, ?_⟩
      · show _ ↔ ReadState.ReadyForLen = ReadState.ReadyForBody
        simp [Option.not_isSome_iff_eq_none.mp h1]
      · show _ = _ + ite (ReadState.ReadyForLen = ReadState.ReadyForBody) 1 0
        simpa using h2
    · exact ⟨h1, h2⟩

/-- Recogniser for payload-push events. -/
def isPushedEvent : TEvent → Bool
  | .pushed _ => true
  | _ => false

/-- If a run of the read loop terminated the transport (an error was
thrown and caught), the emitted events are some fully-processed-frame
events followed by exactly `error` then `close`, and the number of
payloads pushed equals the number of frames whose body decryption
completed — the failing frame contributes none. -/
theorem runLoopF_error_events (nm : NoiseModel) (pushOk : Nat → Bool) :
    ∀ (fuel : Nat) (s : TState), s.dead = false →
      (runLoopF nm pushOk fuel s).1.dead = true →
      ∃ pre, (runLoopF nm pushOk fuel s).2 = pre ++ [.emitError, .emitClose] ∧
        pre.countP isPushedEvent =
          (runLoopF nm pushOk fuel s).1.messagesReceived - s.messagesReceived := by
  intro fuel
  induction fuel with
  | zero =>
    intro s hd hd'
    simp [runLoopF, hd] at hd' 
  | succ f ih =>
    intro s hd hd'
    cases hrs : s.readState
    case Pending =>
      rw [runLoopF_pending nm pushOk (f + 1) s hrs] at hd'
      simp [hd] at hd' 
    case Blocked =>
      rw [runLoopF_blocked nm pushOk (f + 1) s hrs] at hd'
      simp [hd] at hd' 
    case AwaitingHandshakeReply =>
      by_cases h50 : 50 ≤ s.buf.length
      · by_cases hok : nm.act2Ok (s.buf.take 50)
        · have hd2 : (runLoopF nm pushOk f
              { s with readState := .ReadyForLen, buf := s.buf.drop 50 }).1.dead = true := by
            revert hd'
            simp [runLoopF, hrs, h50, hok]
          obtain ⟨pre, hpre, hcount⟩ := ih
            { s with readState := .ReadyForLen, buf := s.buf.drop 50 } hd hd2
          refine ⟨.wroteAct3 (nm.act3 (s.buf.take 50)) :: .emitConnect :: .emitReady :: pre,
            ?_, ?_⟩
          · simp [runLoopF, hrs, h50, hok, hpre]
          · simp only [List.countP_cons, isPushedEvent]
            simp [runLoopF, hrs, h50, hok, hcount]
        · refine ⟨[], ?_, ?_⟩
          · simp [runLoopF, hrs, h50, hok]
          · simp [runLoopF, hrs, h50, hok]
      · rw [runLoopF_hs_short nm pushOk (f + 1) s hrs (Nat.not_le.mp h50)] at hd'
        simp [hd] at hd' 
    case ReadyForLen =>
      by_cases h18 : 18 ≤ s.buf.length
      · cases hdl : nm.decryptLength s.nonce (s.buf.take 18) with
        | some l =>
          have hd2 : (runLoopF nm pushOk f
              { s with readState := .ReadyForBody, pendingLen := some l,
                       nonce := s.nonce + 1, buf := s.buf.drop 18 }).1.dead = true := by
            revert hd'
            simp [runLoopF, hrs, h18, hdl]
          obtain ⟨pre, hpre, hcount⟩ := ih
            { s with readState := .ReadyForBody, pendingLen := some l,
                     nonce := s.nonce + 1, buf := s.buf.drop 18 } hd hd2
          refine ⟨pre, ?_, ?_⟩
          · simp [runLoopF, hrs, h18, hdl, hpre]
          · simp [runLoopF, hrs, h18, hdl, hcount]
        | none =>
          refine ⟨[], ?_, ?_⟩
          · simp [runLoopF, hrs, h18, hdl]
          · simp [runLoopF, hrs, h18, hdl]
      · rw [runLoopF_len_short nm pushOk (f + 1) s hrs (Nat.not_le.mp h18)] at hd'
        simp [hd] at hd' 
    case ReadyForBody =>
      by_cases h16 : s.pendingLen.getD 0 + 16 ≤ s.buf.length
      · cases hdm : nm.decryptMessage s.nonce (s.buf.take (s.pendingLen.getD 0 + 16)) with
        | some m =>
          by_cases hpush : pushOk s.messagesReceived
          · have hd2 : (runLoopF nm pushOk f
                { s with readState := .ReadyForLen, pendingLen := none,
                         nonce := s.nonce + 1,
                         buf := s.buf.drop (s.pendingLen.getD 0 + 16),
                         messagesReceived := s.messagesReceived + 1 }).1.dead = true := by
              revert hd'
              simp [runLoopF, hrs, h16, hdm, hpush]
            obtain ⟨pre, hpre, hcount⟩ := ih
              { s with readState := .ReadyForLen, pendingLen := none,
                       nonce := s.nonce + 1,
                       buf := s.buf.drop (s.pendingLen.getD 0 + 16),
                       messagesReceived := s.messagesReceived + 1 } hd hd2
            have hmr := runLoopF_mr_mono nm pushOk f
              { s with readState := .ReadyForLen, pendingLen := none,
                       nonce := s.nonce + 1,
                       buf := s.buf.drop (s.pendingLen.getD 0 + 16),
                       messagesReceived := s.messagesReceived + 1 }
            simp only at hmr hcount
            refine ⟨.pushed m :: pre, ?_, ?_⟩
            · simp [runLoopF, hrs, h16, hdm, hpush, hpre]
            · simp only [List.countP_cons, isPushedEvent]
              simp [runLoopF, hrs, h16, hdm, hpush]
              omega
          · have : (runLoopF nm pushOk (f + 1) s).1.dead = false := by
              simp [runLoopF, hrs, h16, hdm, hpush, hd]
            rw [hd'] at this
            exact absurd this (by simp)
        | none =>
          refine ⟨[], ?_, ?_⟩
          · simp [runLoopF, hrs, h16, hdm]
          · simp [runLoopF, hrs, h16, hdm]
      · rw [runLoopF_body_short nm pushOk (f + 1) s hrs (Nat.not_le.mp h16)] at hd'
        simp [hd] at hd' 

/-! ## The write path (`NoiseSocket._write`)

`_write` encrypts the payload with `NoiseState.encryptMessage` and then
writes the resulting ciphertext to the socket in a single
`socket.write` call. -/

/-- Errors of the outbound path. -/
inductive NoiseWriteError
  | PayloadTooLarge
deriving DecidableEq, Repr

/-- Modelled from the spec: `NoiseState.encryptMessage` is not among the
provided sources (only its caller `NoiseSocket._write` is).  Per spec
§4.2 "Encryption path": assert `payload.len() ≤ 65535`, failing with
`PayloadTooLarge` otherwise; encrypt the big-endian `u16` of the length
(one AEAD operation, giving 2 + 16 bytes); encrypt the payload (a second
AEAD operation, giving `N` + 16 bytes); return the concatenation.  The
send cipher is abstracted as `aead`, a function of the operation count
`n` as for the receive side. -/
def encryptMessage (aead : Nat → List Nat → List Nat) (n : Nat) (payload : List Nat) :
    Except NoiseWriteError (List Nat × Nat) :=
  if payload.length ≤ 65535 then
    .ok (aead n [payload.length / 256, payload.length % 256] ++ aead (n + 1) payload,
         n + 2)
  else
    .error .PayloadTooLarge

/-- `NoiseSocket._write`: encrypt, then write the one resulting frame to
the underlying socket.  The first component lists the chunks passed to
`socket.write` (none when encryption failed — the error propagates
before any write), the second carries the error if one was thrown, the
third is the send-side AEAD operation count afterwards. -/
def socketWrite (aead : Nat → List Nat → List Nat) (n : Nat) (data : List Nat) :
    List (List Nat) × Option NoiseWriteError × Nat :=
  match encryptMessage aead n data with
  | .ok r => ([r.1], none, r.2)
  | .error e => ([], some e, n)

/-! ## The peer session (`Peer`)

`peer.ts` is not among the provided sources; only its test suite
(`__tests__/peer.spec.ts`) is.  The two operations the claims need are
modelled from the spec (§4.3) and corroborated by those tests. -/

/-- `PeerState` (spec §3). -/
inductive PeerState
  | Pending
  | AwaitingPeerInit
  | Ready
  | Disconnecting
  | Disconnected
deriving DecidableEq, Repr

/-- Session errors relevant to the modelled operations. -/
inductive PeerError
  | UnexpectedMessage
deriving DecidableEq, Repr

/-- Events observable from the session. -/
inductive PeerEvent
  | emitReady
  | emitClose
deriving DecidableEq, Repr

/-- The session state the modelled operations touch. -/
structure Peer where
  state : PeerState
  isInitiator : Bool
  reconnectEnabled : Bool
  remoteInit : Option (List Nat)
  pingPongStarted : Bool
deriving DecidableEq, Repr

/-- Modelled from the spec: `Peer._processPeerInitMessage` (peer.ts is
not among the provided sources).  Spec §4.3: in `AwaitingPeerInit`, an
inbound frame decoded as `init` (type 16) stores the remote init, starts
PingPong, transitions to `Ready` and emits `ready`; any other first
frame raises `UnexpectedMessage` (the session errors).  The tests
`_processPeerInitMessage` (peer.spec.ts lines 225-256) check exactly
this behaviour, including the failure on a type-17 frame. -/
def processPeerInitMessage (p : Peer) (payload : List Nat) :
    Except PeerError (Peer × List PeerEvent) :=
  match payload with
  | t1 :: t2 :: rest =>
    if t1 * 256 + t2 = 16 then
      .ok ({ p with state := .Ready, remoteInit := some rest, pingPongStarted := true },
           [.emitReady])
    else
      .error .UnexpectedMessage
  | _ => .error .UnexpectedMessage

/-- Modelled from the spec: `Peer._onSocketClose` (peer.ts is not among
the provided sources).  Spec §4.3 and §7: the ping/pong service is
stopped; the transport close is propagated as `close`; the session ends
in `Disconnected`; a reconnect is scheduled only when the session is the
initiator, reconnect is enabled, and the state was not `Disconnecting`.
The third component tells whether a reconnect was scheduled.
Corroborated by the `_onSocketClose` tests (peer.spec.ts lines
146-173). -/
def onSocketClose (p : Peer) : Peer × List PeerEvent × Bool :=
  if p.state = .Disconnecting then
    ({ p with state := .Disconnected, pingPongStarted := false }, [.emitClose], false)
  else
    ({ p with state := .Disconnected, pingPongStarted := false }, [.emitClose],
     p.isInitiator && p.reconnectEnabled)

/-! ## The ping message (`PingMessage`) -/

/-- Modelled from the spec: the `PONG_BYTE_THRESHOLD` constant is
imported from `../constants`, which is not among the provided sources;
spec §6 fixes the "pong-threshold" at 65532. -/
def PONG_BYTE_THRESHOLD : Nat := 65532

/-- `PingMessage` (messages/ping-message.ts).  The `type` field is
always `MessageType.Ping = 18`; `numPongBytes` and `ignored` are the
two data fields. -/
structure PingMessage where
  numPongBytes : Nat
  ignored : List Nat
deriving DecidableEq, Repr

/-- The wire type of every ping message (`MessageType.Ping`). -/
def PingMessage.type : Nat := 18

/-- `PingMessage.triggersReply`: a pong reply is required exactly when
`numPongBytes < PONG_BYTE_THRESHOLD`. -/
def PingMessage.triggersReply (p : PingMessage) : Bool :=
  decide (p.numPongBytes < PONG_BYTE_THRESHOLD)

/-- Big-endian `u16` encoding, as written by
`BufferCursor.writeUInt16BE` for an in-range value. -/
def u16be (n : Nat) : List Nat := [n / 256, n % 256]

/-- `PingMessage.serialize`: `u16 type || u16 num_pong_bytes ||
u16 byteslen || ignored`.  Node's `Buffer.writeUInt16BE` (behind
`BufferCursor.writeUInt16BE`) throws `ERR_OUT_OF_RANGE` for a value
above 65535, so serialization of a message whose `numPongBytes` or
`ignored.length` exceeds 65535 fails; a thrown write is `none`. -/
def PingMessage.serialize (p : PingMessage) : Option (List Nat) :=
  if p.numPongBytes ≤ 65535 ∧ p.ignored.length ≤ 65535 then
    some (u16be PingMessage.type ++ u16be p.numPongBytes ++
          u16be p.ignored.length ++ p.ignored)
  else
    none

/-- `PingMessage.deserialize`: read and discard the `u16` type, read
`num_pong_bytes`, read `byteslen`, then read that many bytes
(`BufferCursor.readBytes` throws when fewer remain, modelled as
`none`).  Trailing bytes are ignored, as the cursor never reads them. -/
def PingMessage.deserialize (payload : List Nat) : Option PingMessage :=
  match payload with
  | _ :: _ :: n1 :: n2 :: l1 :: l2 :: rest =>
    if l1 * 256 + l2 ≤ rest.length then
      some { numPongBytes := n1 * 256 + n2, ignored := rest.take (l1 * 256 + l2) }
    else
      none
  | _ => none

/-! ## Concrete cipher models used by the witnesses -/

/-- A total cipher model: act 2 always succeeds, the decrypted length is
the first ciphertext byte, bodies decrypt to themselves. -/
def nmT : NoiseModel :=
  { act2Ok := fun _ => true
    act3 := fun _ => [0]
    decryptLength := fun _ c => some (c.headD 0)
    decryptMessage := fun _ c => some c }

/-- A cipher model whose length decryption always fails the AEAD tag. -/
def nmF : NoiseModel :=
  { act2Ok := fun _ => true
    act3 := fun _ => [0]
    decryptLength := fun _ _ => none
    decryptMessage := fun _ c => some c }

/-- A consumer that always accepts pushes. -/
def pushT : Nat → Bool := fun _ => true

/-- A consumer that always applies backpressure. -/
def pushF : Nat → Bool := fun _ => false

/-- A reachable post-handshake state with 10 buffered bytes, used to
witness the invariant theorem. -/
def c1State : TState :=
  (deliver nmT pushT
    (deliver nmT pushT (startHandshake initState) (List.replicate 50 0)).1
    (List.replicate 10 0)).1

/-! ## The claims -/

/-- C1: in every reachable transport state the cached decrypted length
(`_l`) is present iff the read state is `READY_FOR_BODY` (and absent in
`READY_FOR_LEN`, `BLOCKED`, `PENDING`, `AWAITING_HANDSHAKE_REPLY`);
moreover the recv nonce counter equals exactly two AEAD operations per
received frame plus one for a cached length — so a length, once
decrypted, is never decrypted a second time for the same frame — and a
read attempt in `READY_FOR_LEN` with fewer than 18 buffered bytes
changes nothing: no state transition, no nonce advance, no event. -/
theorem transport_pendingLen_invariant (nm : NoiseModel) (pushOk : Nat → Bool)
    (s : TState) (h : Reachable nm pushOk s) :
    (s.pendingLen.isSome = true ↔ s.readState = .ReadyForBody) ∧
    s.nonce = 2 * s.messagesReceived +
      (if s.readState = .ReadyForBody then 1 else 0) ∧
    (s.readState = .ReadyForLen → s.buf.length < 18 →
      runLoop nm pushOk s = (s, [])) := by
  obtain ⟨h1, h2⟩ := reachable_inv nm pushOk s h
  exact ⟨h1, h2, fun hrs hlen => runLoopF_len_short nm pushOk _ s hrs hlen⟩

/-- Witness for C1 at a concrete reachable state: the post-handshake
transport after a 50-byte act-2 delivery and a 10-byte short delivery. -/
theorem transport_pendingLen_invariant_witness :
    (c1State.pendingLen.isSome = true ↔ c1State.readState = .ReadyForBody) ∧
    c1State.nonce = 2 * c1State.messagesReceived +
      (if c1State.readState = .ReadyForBody then 1 else 0) ∧
    runLoop nmT pushT c1State = (c1State, []) :=
  have h := transport_pendingLen_invariant nmT pushT c1State
    (Reachable.deliver _ (Reachable.deliver _ (Reachable.handshake Reachable.init rfl)))
  ⟨h.1, h.2.1, h.2.2 (by decide) (by decide)⟩

/-- C2: delivering any sequence of post-handshake wire bytes to the read
path fragmented at arbitrary boundaries (including byte-by-byte)
produces exactly the same pushed payload sequence — indeed the same
events and final state — as delivering all the bytes in one `readable`
event, for any cipher model under which the honest bytes decrypt. -/
theorem transport_fragmentation_invariance (nm : NoiseModel) (pushOk : Nat → Bool)
    (hL : ∀ n c, (nm.decryptLength n c).isSome = true)
    (hM : ∀ n c, (nm.decryptMessage n c).isSome = true)
    (n0 m0 : Nat) (chunks : List (List Nat)) :
    deliverChunks nm pushOk
      { readState := .ReadyForLen, pendingLen := none, nonce := n0, buf := [],
        messagesReceived := m0, dead := false } chunks =
    deliver nm pushOk
      { readState := .ReadyForLen, pendingLen := none, nonce := n0, buf := [],
        messagesReceived := m0, dead := false } chunks.flatten := by
  apply deliverChunks_join nm pushOk hL hM
  · simp
  · rfl

/-- Witness for C2: a 34-byte frame (0-length body) delivered one byte
at a time versus all at once. -/
theorem transport_fragmentation_invariance_witness :
    deliverChunks nmT pushT
      { readState := .ReadyForLen, pendingLen := none, nonce := 0, buf := [],
        messagesReceived := 0, dead := false } (List.replicate 34 [0]) =
    deliver nmT pushT
      { readState := .ReadyForLen, pendingLen := none, nonce := 0, buf := [],
        messagesReceived := 0, dead := false } (List.replicate 34 [0]).flatten :=
  transport_fragmentation_invariance nmT pushT (fun _ _ => rfl) (fun _ _ => rfl)
    0 0 (List.replicate 34 [0])

/-- C4: whenever a run of `_onData` terminates the transport (an error
was thrown while processing inbound data, including an AEAD tag failure
in `decryptLength` or `decryptMessage`), the emitted events end with
exactly `error` followed by `close`, and the payloads pushed upstream
are exactly those of the earlier fully-decrypted frames: the failing
frame delivers nothing. -/
theorem transport_error_emits_error_then_close (nm : NoiseModel) (pushOk : Nat → Bool)
    (s : TState) (hd : s.dead = false)
    (hd' : (runLoop nm pushOk s).1.dead = true) :
    ∃ pre, (runLoop nm pushOk s).2 = pre ++ [.emitError, .emitClose] ∧
      pre.countP isPushedEvent =
        (runLoop nm pushOk s).1.messagesReceived - s.messagesReceived :=
  runLoopF_error_events nm pushOk s.buf.length s hd hd'

/-- Witness for C4: a length header whose AEAD tag fails. -/
theorem transport_error_emits_error_then_close_witness :
    ({ readState := .ReadyForLen, pendingLen := none, nonce := 0,
       buf := List.replicate 18 0, messagesReceived := 0,
       dead := false } : TState).dead = false ∧
    (runLoop nmF pushT
      { readState := .ReadyForLen, pendingLen := none, nonce := 0,
        buf := List.replicate 18 0, messagesReceived := 0,
        dead := false }).1.dead = true ∧
    ∃ pre, (runLoop nmF pushT
      { readState := .ReadyForLen, pendingLen := none, nonce := 0,
        buf := List.replicate 18 0, messagesReceived := 0,
        dead := false }).2 = pre ++ [.emitError, .emitClose] ∧
      pre.countP isPushedEvent =
        (runLoop nmF pushT
          { readState := .ReadyForLen, pendingLen := none, nonce := 0,
            buf := List.replicate 18 0, messagesReceived := 0,
            dead := false }).1.messagesReceived - 0 :=
  ⟨rfl, by decide,
   transport_error_emits_error_then_close nmF pushT _ rfl (by decide)⟩

/-- C5: when pushing a decrypted payload returns `false` the transport
enters `BLOCKED` having consumed exactly the in-flight frame; in
`BLOCKED` a delivery buffers bytes but consumes none of them and emits
nothing; and a consumer `_read` returns the state to `READY_FOR_LEN`
and resumes processing of the buffered bytes exactly as if the
transport had never blocked — no frame lost or duplicated. -/
theorem transport_backpressure_block_and_resume (nm : NoiseModel) (pushOk : Nat → Bool)
    (s t : TState) (c : List Nat) (l : Nat) (m : List Nat) :
    (s.readState = .ReadyForBody → s.pendingLen = some l →
      l + 16 ≤ s.buf.length →
      nm.decryptMessage s.nonce (s.buf.take (l + 16)) = some m →
      pushOk s.messagesReceived = false →
      runLoop nm pushOk s =
        ({ s with readState := .Blocked, pendingLen := none, nonce := s.nonce + 1,
                  buf := s.buf.drop (l + 16),
                  messagesReceived := s.messagesReceived + 1 }, [.pushed m])) ∧
    (t.readState = .Blocked →
      deliver nm pushOk t c = ({ t with buf := t.buf ++ c }, []) ∧
      onRead nm pushOk { t with buf := t.buf ++ c } =
        runLoop nm pushOk { t with readState := .ReadyForLen, buf := t.buf ++ c }) := by
  constructor
  · intro hrs hpl h16 hdm hpush
    obtain ⟨n, hn⟩ : ∃ n, s.buf.length = n + 1 := ⟨s.buf.length - 1, by omega⟩
    show runLoopF nm pushOk s.buf.length s = _
    rw [hn]
    simp [runLoopF, hrs, hpl, h16, hdm, hpush]
  · intro ht
    constructor
    · exact runLoopF_blocked nm pushOk _ _ ht
    · simp [onRead, readInvoke, ht]

/-- Witness for C5: a 16-byte zero-length-body frame pushed to a refusing
consumer, then a delivery to the blocked transport and the resuming
`_read`. -/
theorem transport_backpressure_block_and_resume_witness :
    runLoop nmT pushF
      { readState := .ReadyForBody, pendingLen := some 0, nonce := 1,
        buf := List.replicate 16 9, messagesReceived := 0, dead := false } =
      ({ readState := .Blocked, pendingLen := none, nonce := 2,
         buf := (List.replicate 16 9 : List Nat).drop (0 + 16),
         messagesReceived := 1, dead := false },
       [.pushed (List.replicate 16 9)]) ∧
    deliver nmT pushF
      { readState := .Blocked, pendingLen := none, nonce := 2, buf := [],
        messagesReceived := 1, dead := false } [1, 2, 3] =
      ({ readState := .Blocked, pendingLen := none, nonce := 2,
         buf := [] ++ [1, 2, 3], messagesReceived := 1, dead := false }, []) ∧
    onRead nmT pushF
      { readState := .Blocked, pendingLen := none, nonce := 2,
        buf := [] ++ [1, 2, 3], messagesReceived := 1, dead := false } =
      runLoop nmT pushF
        { readState := .ReadyForLen, pendingLen := none, nonce := 2,
          buf := [] ++ [1, 2, 3], messagesReceived := 1, dead := false } :=
  have h := transport_backpressure_block_and_resume nmT pushF
    { readState := .ReadyForBody, pendingLen := some 0, nonce := 1,
      buf := List.replicate 16 9, messagesReceived := 0, dead := false }
    { readState := .Blocked, pendingLen := none, nonce := 2, buf := [],
      messagesReceived := 1, dead := false }
    [1, 2, 3] 0 (List.replicate 16 9)
  ⟨h.1 rfl rfl (by decide) (by decide) rfl, (h.2 rfl).1, (h.2 rfl).2⟩

/-- C6: in `AWAITING_HANDSHAKE_REPLY` the initiator does nothing until
50 bytes are buffered; once 50 bytes are available it consumes exactly
those 50, processes act 2 on them, writes the act-3 message, transitions
to `READY_FOR_LEN` and emits `ready` (after `connect`), in that order,
before any further frame processing. -/
theorem transport_handshake_reply (nm : NoiseModel) (pushOk : Nat → Bool) (s : TState)
    (h : s.readState = .AwaitingHandshakeReply) :
    (s.buf.length < 50 → runLoop nm pushOk s = (s, [])) ∧
    (50 ≤ s.buf.length → nm.act2Ok (s.buf.take 50) = true →
      runLoop nm pushOk s =
        ((runLoop nm pushOk
            { s with readState := .ReadyForLen, buf := s.buf.drop 50 }).1,
         .wroteAct3 (nm.act3 (s.buf.take 50)) :: .emitConnect :: .emitReady ::
           (runLoop nm pushOk
             { s with readState := .ReadyForLen, buf := s.buf.drop 50 }).2)) := by
  constructor
  · intro hlen
    exact runLoopF_hs_short nm pushOk _ s h hlen
  · intro h50 hok
    obtain ⟨n, hn⟩ : ∃ n, s.buf.length = n + 1 := ⟨s.buf.length - 1, by omega⟩
    show runLoopF nm pushOk s.buf.length s = _
    rw [hn]
    have hcongr : runLoopF nm pushOk n
        { s with readState := .ReadyForLen, buf := s.buf.drop 50 } =
      runLoopF nm pushOk (s.buf.drop 50).length
        { s with readState := .ReadyForLen, buf := s.buf.drop 50 } := by
      apply runLoopF_congr <;> simp [List.length_drop] <;> omega
    simp [runLoopF, runLoop, h, h50, hok, hcongr]

/-- Witness for C6: a 50-byte act-2 reply, and the short-read case with
49 bytes via the same state family. -/
theorem transport_handshake_reply_witness :
    runLoop nmT pushT
      { readState := .AwaitingHandshakeReply, pendingLen := none, nonce := 0,
        buf := List.replicate 50 0, messagesReceived := 0, dead := false } =
      ((runLoop nmT pushT
          { readState := .ReadyForLen, pendingLen := none, nonce := 0,
            buf := (List.replicate 50 0 : List Nat).drop 50, messagesReceived := 0,
            dead := false }).1,
       .wroteAct3 (nmT.act3 ((List.replicate 50 0 : List Nat).take 50)) ::
         .emitConnect :: .emitReady ::
         (runLoop nmT pushT
           { readState := .ReadyForLen, pendingLen := none, nonce := 0,
             buf := (List.replicate 50 0 : List Nat).drop 50, messagesReceived := 0,
             dead := false }).2) ∧
    runLoop nmT pushT
      { readState := .AwaitingHandshakeReply, pendingLen := none, nonce := 0,
        buf := List.replicate 49 0, messagesReceived := 0, dead := false } =
      ({ readState := .AwaitingHandshakeReply, pendingLen := none, nonce := 0,
         buf := List.replicate 49 0, messagesReceived := 0, dead := false }, []) :=
  ⟨(transport_handshake_reply nmT pushT
      { readState := .AwaitingHandshakeReply, pendingLen := none, nonce := 0,
        buf := List.replicate 50 0, messagesReceived := 0, dead := false } rfl).2
      (by decide) rfl,
   (transport_handshake_reply nmT pushT
      { readState := .AwaitingHandshakeReply, pendingLen := none, nonce := 0,
        buf := List.replicate 49 0, messagesReceived := 0, dead := false } rfl).1
      (by decide)⟩

/-- C3: a write whose payload exceeds 65535 bytes fails with
`PayloadTooLarge` before any bytes reach the underlying stream (the
chunk list is empty and the send cipher is untouched); a payload of at
most 65535 bytes succeeds, emitting exactly one encrypted frame in a
single `socket.write`. -/
theorem write_payload_size_contract (aead : Nat → List Nat → List Nat) (n : Nat)
    (data : List Nat) :
    (data.length ≤ 65535 →
      socketWrite aead n data =
        ([aead n [data.length / 256, data.length % 256] ++ aead (n + 1) data],
         none, n + 2)) ∧
    (65535 < data.length →
      socketWrite aead n data = ([], some .PayloadTooLarge, n)) := by
  constructor
  · intro h
    simp [socketWrite, encryptMessage, h]
  · intro h
    simp [socketWrite, encryptMessage, Nat.not_le.mpr h]

/-- Witness for C3: a 3-byte payload is framed; a 65536-byte payload is
rejected with nothing written. -/
theorem write_payload_size_contract_witness :
    socketWrite (fun _ c => c) 0 (List.replicate 3 7) =
      ([[0, 3] ++ List.replicate 3 7], none, 2) ∧
    socketWrite (fun _ c => c) 5 (List.replicate 65536 0) =
      ([], some .PayloadTooLarge, 5) :=
  ⟨(write_payload_size_contract (fun _ c => c) 0 (List.replicate 3 7)).1 (by decide),
   (write_payload_size_contract (fun _ c => c) 5 (List.replicate 65536 0)).2
     (by rw [List.length_replicate]; omega)⟩

/-- C7: in `AwaitingPeerInit`, a first inbound frame whose wire type is
16 (`init`) stores the remote init, starts the ping/pong service,
transitions the session to `Ready` and emits `ready`; a first frame of
any other type makes the session raise `UnexpectedMessage` instead of
transitioning to `Ready`. -/
theorem peer_first_frame_must_be_init (p : Peer) (t1 t2 : Nat) (rest : List Nat)
    (hstate : p.state = .AwaitingPeerInit) :
    (t1 * 256 + t2 = 16 →
      processPeerInitMessage p (t1 :: t2 :: rest) =
        .ok ({ p with
                 state := .Ready,
                 remoteInit := some rest,
                 pingPongStarted := true }, [.emitReady])) ∧
    (t1 * 256 + t2 ≠ 16 →
      processPeerInitMessage p (t1 :: t2 :: rest) = .error .UnexpectedMessage) := by
  constructor
  · intro h
    simp [processPeerInitMessage, h]
  · intro h
    simp [processPeerInitMessage, h]

/-- Witness for C7: the test vectors `0x0010 0000 0000` (an init) and
`0x0011 0000 0000` (not an init) against a session awaiting the peer
init. -/
theorem peer_first_frame_must_be_init_witness :
    processPeerInitMessage
      { state := .AwaitingPeerInit, isInitiator := true, reconnectEnabled := true,
        remoteInit := none, pingPongStarted := false } (0 :: 16 :: [0, 0, 0, 0]) =
      .ok ({ state := .Ready, isInitiator := true, reconnectEnabled := true,
             remoteInit := some [0, 0, 0, 0], pingPongStarted := true },
           [.emitReady]) ∧
    processPeerInitMessage
      { state := .AwaitingPeerInit, isInitiator := true, reconnectEnabled := true,
        remoteInit := none, pingPongStarted := false } (0 :: 17 :: [0, 0, 0, 0]) =
      .error .UnexpectedMessage :=
  ⟨(peer_first_frame_must_be_init
      { state := .AwaitingPeerInit, isInitiator := true, reconnectEnabled := true,
        remoteInit := none, pingPongStarted := false } 0 16 [0, 0, 0, 0] rfl).1 rfl,
   (peer_first_frame_must_be_init
      { state := .AwaitingPeerInit, isInitiator := true, reconnectEnabled := true,
        remoteInit := none, pingPongStarted := false } 0 17 [0, 0, 0, 0] rfl).2
      (by decide)⟩

/-- C8: `PingMessage.triggersReply` is `true` exactly when
`numPongBytes` is strictly below 65532; in particular a ping with
`numPongBytes = 65532` declines a reply. -/
theorem ping_triggersReply_iff (p : PingMessage) :
    (p.triggersReply = true ↔ p.numPongBytes < 65532) ∧
    (p.numPongBytes = 65532 → p.triggersReply = false) := by
  constructor
  · simp [PingMessage.triggersReply, PONG_BYTE_THRESHOLD]
  · intro h
    simp [PingMessage.triggersReply, PONG_BYTE_THRESHOLD, h]

/-- Witness for C8: the threshold ping itself. -/
theorem ping_triggersReply_iff_witness :
    ((PingMessage.mk 65532 []).triggersReply = true ↔
      (PingMessage.mk 65532 []).numPongBytes < 65532) ∧
    (PingMessage.mk 65532 []).triggersReply = false :=
  ⟨(ping_triggersReply_iff (PingMessage.mk 65532 [])).1,
   (ping_triggersReply_iff (PingMessage.mk 65532 [])).2 rfl⟩

/-- C9: an observed transport close schedules a reconnect exactly when
the session is the initiator, reconnect is enabled and the state is not
`Disconnecting`; a close observed in `Disconnecting` emits `close` and
never reconnects. -/
theorem peer_close_reconnect_policy (p : Peer) :
    ((onSocketClose p).2.2 = true ↔
      p.isInitiator = true ∧ p.reconnectEnabled = true ∧
        p.state ≠ .Disconnecting) ∧
    (p.state = .Disconnecting →
      onSocketClose p =
        ({ p with state := .Disconnected, pingPongStarted := false },
         [.emitClose], false)) := by
  constructor
  · by_cases h : p.state = .Disconnecting
    · simp [onSocketClose, h]
    · simp [onSocketClose, h]
  · intro h
    simp [onSocketClose, h]

/-- Witness for C9: a disconnecting initiator session. -/
theorem peer_close_reconnect_policy_witness :
    ((onSocketClose
        { state := .Disconnecting, isInitiator := true, reconnectEnabled := true,
          remoteInit := none, pingPongStarted := true }).2.2 = true ↔
      ({ state := .Disconnecting, isInitiator := true, reconnectEnabled := true,
         remoteInit := none, pingPongStarted := true } : Peer).isInitiator = true ∧
      ({ state := .Disconnecting, isInitiator := true, reconnectEnabled := true,
         remoteInit := none, pingPongStarted := true } : Peer).reconnectEnabled = true ∧
      ({ state := .Disconnecting, isInitiator := true, reconnectEnabled := true,
         remoteInit := none, pingPongStarted := true } : Peer).state ≠
        .Disconnecting) ∧
    onSocketClose
      { state := .Disconnecting, isInitiator := true, reconnectEnabled := true,
        remoteInit := none, pingPongStarted := true } =
      ({ state := .Disconnected, isInitiator := true, reconnectEnabled := true,
         remoteInit := none, pingPongStarted := false }, [.emitClose], false) :=
  ⟨(peer_close_reconnect_policy
      { state := .Disconnecting, isInitiator := true, reconnectEnabled := true,
        remoteInit := none, pingPongStarted := true }).1,
   (peer_close_reconnect_policy
      { state := .Disconnecting, isInitiator := true, reconnectEnabled := true,
        remoteInit := none, pingPongStarted := true }).2 rfl⟩

/-- Any `u16` big-endian pair decodes back to its value. -/
theorem u16be_decode (n : Nat) : n / 256 * 256 + n % 256 = n := by omega

/-- C10 counterexample: the claim quantifies over every `PingMessage`
with `ignored.length ≤ 65535`, but a message with
`numPongBytes = 65536` satisfies that hypothesis and `serialize` throws
(`Buffer.writeUInt16BE` rejects the out-of-range value), producing no
buffer at all, so no round trip exists for it. -/
theorem ping_roundtrip_counterexample :
    (PingMessage.mk 65536 []).ignored.length ≤ 65535 ∧
    ¬ ∃ buf, (PingMessage.mk 65536 []).serialize = some buf ∧
        PingMessage.deserialize buf = some (PingMessage.mk 65536 []) := by
  refine ⟨by decide, ?_⟩
  rintro ⟨buf, hb, _⟩
  simp [PingMessage.serialize] at hb

/-- C10 (amended): for every `PingMessage` whose `numPongBytes` and
`ignored.length` are at most 65535, `serialize` produces exactly
`u16_be(18) || u16_be(numPongBytes) || u16_be(ignored.length) ||
ignored` — a buffer of `6 + ignored.length` bytes — and deserializing it
returns a message equal to the original in type, `numPongBytes` and
`ignored`. -/
theorem ping_serialize_roundtrip (p : PingMessage)
    (hn : p.numPongBytes ≤ 65535) (hi : p.ignored.length ≤ 65535) :
    p.serialize = some (u16be PingMessage.type ++ u16be p.numPongBytes ++
      u16be p.ignored.length ++ p.ignored) ∧
    p.serialize.bind PingMessage.deserialize = some p ∧
    ∀ buf, p.serialize = some buf → buf.length = 6 + p.ignored.length := by
  have hser : p.serialize = some (u16be PingMessage.type ++ u16be p.numPongBytes ++
      u16be p.ignored.length ++ p.ignored) := by
    simp [PingMessage.serialize, hn, hi]
  refine ⟨hser, ?_, ?_⟩
  · rw [hser]
    show PingMessage.deserialize
      (PingMessage.type / 256 :: PingMessage.type % 256 ::
       p.numPongBytes / 256 :: p.numPongBytes % 256 ::
       p.ignored.length / 256 :: p.ignored.length % 256 :: p.ignored) = some p
    simp [PingMessage.deserialize, u16be_decode, List.take_length]
  · intro buf hb
    rw [hser] at hb
    obtain rfl : u16be PingMessage.type ++ u16be p.numPongBytes ++
        u16be p.ignored.length ++ p.ignored = buf := by
      exact Option.some.inj hb
    simp [u16be]
    omega

/-- Witness for C10 (amended): the default-style ping
`numPongBytes = 1`, `ignored = [0, 0]`. -/
theorem ping_serialize_roundtrip_witness :
    (PingMessage.mk 1 [0, 0]).serialize =
      some (u16be PingMessage.type ++ u16be 1 ++ u16be 2 ++ [0, 0]) ∧
    (PingMessage.mk 1 [0, 0]).serialize.bind PingMessage.deserialize =
      some (PingMessage.mk 1 [0, 0]) ∧
    (u16be PingMessage.type ++ u16be 1 ++ u16be 2 ++ [0, 0]).length = 6 + 2 :=
  ⟨(ping_serialize_roundtrip (PingMessage.mk 1 [0, 0]) (by decide) (by decide)).1,
   (ping_serialize_roundtrip (PingMessage.mk 1 [0, 0]) (by decide) (by decide)).2.1,
   (ping_serialize_roundtrip (PingMessage.mk 1 [0, 0]) (by decide) (by decide)).2.2 _
     (ping_serialize_roundtrip (PingMessage.mk 1 [0, 0]) (by decide) (by decide)).1⟩

end LnTools
